import Mathlib

/-!
Verification of the constraint dispatch and message resolution engine of the
ember-perspective validation library. The definitions below are a shallow
embedding of the source files `src/core.ts`, `src/validators.ts`, `error.ts`
(shipped compiled as `error.js`), `src/type-utils/has-length.ts`,
`src/utils/uuid-format.ts` and `src/utils/email-format.ts` (shipped compiled
as `dist/utils/email-format.js`). Asynchronous functions are embedded as pure
functions (the library awaits every suspension point in sequence, so the
asynchronous structure is observationally a sequential computation), and
thrown configuration errors are embedded with `Except`.
-/

namespace EmberPerspective

/-- Runtime JavaScript values, restricted to the shapes the engine inspects.
Objects carry a reference identity `id` (strict equality of objects is
reference equality), the identity `ctorId` of the constructor that produced
them (for `instanceof`), and their `length` property when they have a numeric
one. Functions carry an identity and their `name` property. -/
inductive JSValue where
  | undef
  | null
  | bool (b : Bool)
  | num (n : Int)
  | nan
  | bigintv (n : Int)
  | str (s : String)
  | sym (id : Nat)
  | fn (id : Nat) (name : String)
  | obj (id : Nat) (ctorId : Nat) (len : Option Int)
deriving DecidableEq

/-- A model is a record of field names to values (`common.ts`: `Model`).
Field identifiers are embedded as strings. -/
abbrev Model := List (String × JSValue)

abbrev Field := String

/-- Reading `model[field]`: a missing property reads as `undefined`. -/
def getField (model : Model) (field : Field) : JSValue :=
  match model.lookup field with
  | some v => v
  | none => JSValue.undef

/-- The JavaScript `typeof` operator on embedded values. -/
def typeofJS : JSValue → String
  | .undef => "undefined"
  | .null => "object"
  | .bool _ => "boolean"
  | .num _ => "number"
  | .nan => "number"
  | .bigintv _ => "bigint"
  | .str _ => "string"
  | .sym _ => "symbol"
  | .fn _ _ => "function"
  | .obj _ _ _ => "object"

/-- Ember `isNone`: the value is `null` or `undefined`. -/
def isNone : JSValue → Bool
  | .undef => true
  | .null => true
  | _ => false

/-- JavaScript strict equality `===` on embedded values: structural equality
of the representation (reference equality for objects), except that `NaN` is
not equal to itself. -/
def strictEq (a b : JSValue) : Bool :=
  if a = JSValue.nan ∨ b = JSValue.nan then false else a = b

/-- JavaScript `Array.prototype.includes`: SameValueZero membership, under
which `NaN` does match `NaN` (structural equality of the representation). -/
def jsIncludes (xs : List JSValue) (v : JSValue) : Bool :=
  xs.any (fun x => x = v)

/-- `type-utils/has-length.ts`: the value is a string, or a non-null object
with a numeric `length` property. -/
def hasLength : JSValue → Bool
  | .str _ => true
  | .obj _ _ (some _) => true
  | _ => false

/-- The numeric `length` property of a value satisfying `hasLength`. -/
def lengthOf : JSValue → Int
  | .str s => s.length
  | .obj _ _ (some n) => n
  | _ => 0

/-- A JavaScript regular expression, embedded by its observable behaviour:
`test r s` holds exactly when the expression finds a match in `s`. -/
structure JSRegExp where
  test : String → Bool

/-- JavaScript `value.match(x)` viewed as a pass/fail outcome. When `x` is
not a regular expression it is coerced with `new RegExp(x)`; in particular
`undefined` coerces to the empty pattern, which finds a match in every
string, so `match` is truthy for every input then. -/
def jsMatch (s : String) (r : Option JSRegExp) : Bool :=
  match r with
  | some re => re.test s
  | none => true

/-- Values occurring in the parameter record handed to an i18n translation:
the entries of `\x7bconstraint, model, field, value, ...otherOptions\x7d`
built by `messageForError`. Function-valued option entries are abstracted to
the marker `fnv` (their identity is not observable to a translation). -/
inductive ParamValue where
  | v (x : JSValue)
  | s (x : String)
  | n (x : Int)
  | re (r : JSRegExp)
  | list (xs : List JSValue)
  | modelv (m : List (String × JSValue))
  | fnv

/-- The i18n handler capability (`common.ts`: `I18nHandler`): `existsKey`
embeds `exists(errorKey)` and `t` embeds `t(errorKey, options)`. -/
structure I18nHandler where
  existsKey : String → Bool
  t : String → List (String × ParamValue) → String

/-- The `i18n` constraint option: a handler and an optional lookup key. The
handler is optional because `messageForError` guards every access to it with
optional chaining. -/
structure I18nOptions where
  handler : Option I18nHandler
  key : Option String

/-- Constraint options (`core.ts`: `CoreOptions` together with every
constraint-specific option key read anywhere in `validators.ts` or
`core.ts`). Absent record entries are `none`. Lean keywords force renamings
of some JS keys: `ifPred` embeds `if`, `inArr` embeds `in`, `fromArr` embeds
`from`, `withRegex` and `withFn` embed the two uses of `with` (the format
constraint reads it as a regular expression, the custom constraint as a
validator function). `ownConstructor` is an own `constructor` property of
the options record, absent on ordinary option literals. `others` holds any
further caller-supplied entries (they only flow into translation
parameters). The modelled `if` predicate and custom validator are embedded
synchronously. -/
structure CoreOptions where
  message : Option String := none
  i18n : Option I18nOptions := none
  ifPred : Option (JSValue → Model → Field → Bool) := none
  type : Option String := none
  Constructor : Option JSValue := none
  minimum : Option Int := none
  maximum : Option Int := none
  pattern : Option JSRegExp := none
  withRegex : Option JSRegExp := none
  onKey : Option Field := none
  inArr : Option (List JSValue) := none
  fromArr : Option (List JSValue) := none
  withFn : Option (Model → Field → JSValue → Option String) := none
  ownConstructor : Option JSValue := none
  others : List (String × ParamValue) := []

/-- The exception classes of `error.ts`, plus the runtime `TypeError` that
JavaScript itself raises (distinct from every configuration error class). -/
inductive JSError where
  | unknownConstraint (msg : String)
  | requiredOptionMissing (msg : String)
  | invalidValueForConstraint (msg : String)
  | typeError (msg : String)

/-- Ember `isPresent` applied to the optional `message` string: false for an
absent value, an empty string or a whitespace-only string (the string is
inspected through its character list). -/
def isPresent : Option String → Bool
  | none => false
  | some s => s.data.any (fun c => !c.isWhitespace)

/-- The option entries spread into the translation parameters: every entry
of the options record except `message` and `i18n` (the rest-destructuring
`otherOptions` in `messageForError`). -/
def otherOptionEntries (options : CoreOptions) : List (String × ParamValue) :=
  (match options.ifPred with
   | some _ => [("if", ParamValue.fnv)]
   | none => []) ++
  (match options.type with
   | some t => [("type", ParamValue.s t)]
   | none => []) ++
  (match options.Constructor with
   | some c => [("Constructor", ParamValue.v c)]
   | none => []) ++
  (match options.minimum with
   | some n => [("minimum", ParamValue.n n)]
   | none => []) ++
  (match options.maximum with
   | some n => [("maximum", ParamValue.n n)]
   | none => []) ++
  (match options.pattern with
   | some r => [("pattern", ParamValue.re r)]
   | none => []) ++
  (match options.withRegex with
   | some r => [("with", ParamValue.re r)]
   | none => []) ++
  (match options.withFn with
   | some _ => [("with", ParamValue.fnv)]
   | none => []) ++
  (match options.onKey with
   | some f => [("on", ParamValue.s f)]
   | none => []) ++
  (match options.inArr with
   | some xs => [("in", ParamValue.list xs)]
   | none => []) ++
  (match options.fromArr with
   | some xs => [("from", ParamValue.list xs)]
   | none => []) ++
  options.others

/-- The parameter record `\x7bconstraint, model, field, value,
...otherOptions\x7d` passed to `handler.t` by `messageForError`. -/
def translationParams (model : Model) (field : Field) (value : JSValue)
    (constraint : String) (options : CoreOptions) : List (String × ParamValue) :=
  [("constraint", ParamValue.s constraint),
   ("model", ParamValue.modelv model),
   ("field", ParamValue.s field),
   ("value", ParamValue.v value)] ++ otherOptionEntries options

/-- `error.ts`: resolves the user-facing message for a failing constraint.
Precedence: a present `options.message`, then a translation under
`options.i18n.key` (defaulting to `validation.` + constraint) when the
handler recognises that key, then the default message. -/
def messageForError (model : Model) (field : Field) (value : JSValue)
    (constraint : String) (defaultMessage : String) (options : CoreOptions) : String :=
  if isPresent options.message then
    options.message.getD ""
  else
    let errorKey := (options.i18n.bind (fun io => io.key)).getD ("validation." ++ constraint)
    match options.i18n with
    | some io =>
      match io.handler with
      | some h =>
        if h.existsKey errorKey then
          h.t errorKey (translationParams model field value constraint options)
        else defaultMessage
      | none => defaultMessage
    | none => defaultMessage

/-- The result type of one validator call: a configuration error, or
optionally an error message (`none` is a pass). -/
abbrev VResult := Except JSError (Option String)

/-- `validators.ts`: the presence constraint. -/
def validatePresence (model : Model) (field : Field) (value : JSValue)
    (options : CoreOptions) : VResult :=
  if isNone value then
    .ok (some (messageForError model field value "presence" "Must be present" options))
  else .ok none

/-- `validators.ts`: the absence constraint. -/
def validateAbsence (model : Model) (field : Field) (value : JSValue)
    (options : CoreOptions) : VResult :=
  if !isNone value then
    .ok (some (messageForError model field value "absence" "Must not be present" options))
  else .ok none

/-- `validators.ts`: the type constraint compares `typeof value` against
`options.type` with strict equality. With `options.type` absent the
comparison `typeof value !== undefined` is true for every value and the
template renders the absent option as `undefined`. -/
def validateType (model : Model) (field : Field) (value : JSValue)
    (options : CoreOptions) : VResult :=
  match options.type with
  | some t =>
    if typeofJS value ≠ t then
      .ok (some (messageForError model field value "type" ("Must be a " ++ t) options))
    else .ok none
  | none =>
    .ok (some (messageForError model field value "type" "Must be a undefined" options))

/-- JavaScript `value instanceof c`: raises `TypeError` when `c` is not a
function; for a constructor function it holds when the value is an object
produced by that constructor (prototype chains beyond the direct constructor
are not modelled; no claim depends on them). -/
def jsInstanceof (value c : JSValue) : Except JSError Bool :=
  match c with
  | .fn cid _ => .ok (match value with
      | .obj _ ctorId _ => ctorId = cid
      | _ => false)
  | _ => .error (.typeError "Right-hand side of instanceof is not callable")

/-- The `name` property of a function value. -/
def jsFnName : JSValue → String
  | .fn _ n => n
  | _ => ""

/-- `validators.ts`: the instance constraint evaluates
`value instanceof options.Constructor`; its failure message is resolved
under the constraint key `type`. An absent `Constructor` makes `instanceof`
raise `TypeError` before any message is built. -/
def validateInstance (model : Model) (field : Field) (value : JSValue)
    (options : CoreOptions) : VResult :=
  match options.Constructor with
  | some c =>
    match jsInstanceof value c with
    | .error e => .error e
    | .ok isInst =>
      if !isInst then
        .ok (some (messageForError model field value "type"
          ("Must be an instance of " ++ jsFnName c) options))
      else .ok none
  | none => .error (.typeError "Right-hand side of instanceof is not callable")

/-- `validators.ts`: the length constraint. Values without a numeric length
raise `InvalidValueForConstraintError`; otherwise the bounds present in the
options select one of three failure variants with distinct constraint keys. -/
def validateLength (model : Model) (field : Field) (value : JSValue)
    (options : CoreOptions) : VResult :=
  if !hasLength value then
    .error (.invalidValueForConstraint "Constrained field should have a numeric `length` property")
  else
    let length := lengthOf value
    match options.minimum, options.maximum with
    | some mn, some mx =>
      if length < mn ∨ length > mx then
        .ok (some (messageForError model field value "length.interval"
          ("Length must be between " ++ toString mn ++ " and " ++ toString mx) options))
      else .ok none
    | some mn, none =>
      if length < mn then
        .ok (some (messageForError model field value "length.minimum"
          ("Length must be greater than " ++ toString mn) options))
      else .ok none
    | none, some mx =>
      if length > mx then
        .ok (some (messageForError model field value "length.maximum"
          ("Length must be less than " ++ toString mx) options))
      else .ok none
    | none, none => .ok none

/-- Splits a character list at every occurrence of the separator. -/
def splitOnChar (sep : Char) : List Char → List (List Char)
  | [] => [[]]
  | x :: xs =>
    match splitOnChar sep xs with
    | r :: rs => if x = sep then [] :: r :: rs else (x :: r) :: rs
    | [] => if x = sep then [[], []] else [[x]]

/-- The special characters of the local-part atom class in the email regex
of `utils/email-format.ts`, given by code point: exclamation mark, number
sign, dollar, percent, ampersand, apostrophe, asterisk, plus, slash, equals,
question mark, circumflex, underscore, grave accent, the two curly brackets,
vertical bar, tilde and hyphen. -/
def emailAtomSpecials : List Char :=
  [Char.ofNat 33, Char.ofNat 35, Char.ofNat 36, Char.ofNat 37, Char.ofNat 38,
   Char.ofNat 39, Char.ofNat 42, Char.ofNat 43, Char.ofNat 47, Char.ofNat 61,
   Char.ofNat 63, Char.ofNat 94, Char.ofNat 95, Char.ofNat 96, Char.ofNat 123,
   Char.ofNat 124, Char.ofNat 125, Char.ofNat 126, Char.ofNat 45]

/-- A character admitted in a local-part atom: a letter (the regex class is
case-insensitive), a digit, or one of the special characters. -/
def isEmailAtomChar (c : Char) : Bool :=
  c.isAlphanum || emailAtomSpecials.contains c

/-- One dot-separated atom of the local part: non-empty, every character
from the atom class. -/
def isEmailAtom (l : List Char) : Bool :=
  !l.isEmpty && l.all isEmailAtomChar

/-- One domain label of the email regex, the group
`[a-z0-9]([a-z0-9-]*[a-z0-9])?`: non-empty, alphanumeric characters at both
ends, hyphens allowed in between. -/
def isEmailLabel (l : List Char) : Bool :=
  !l.isEmpty &&
  l.all (fun c => c.isAlphanum || c = Char.ofNat 45) &&
  (match l.head? with
   | some c => c.isAlphanum
   | none => false) &&
  (match l.getLast? with
   | some c => c.isAlphanum
   | none => false)

/-- `utils/email-format.ts` (present in the repository as the compiled
`dist/utils/email-format.js`): the anchored, case-insensitive email regular
expression, spelt out structurally. The local part is one or more atoms
separated by single periods (so no leading, trailing or consecutive
periods), the separator is a single commercial at (the atom and label
classes both exclude it, so a full match has exactly one), and the domain is
two or more labels separated by periods, each alphanumeric at both ends with
hyphens allowed inside. -/
def isEmailValid (s : String) : Bool :=
  match splitOnChar (Char.ofNat 64) s.data with
  | [localPart, domain] =>
    let atoms := splitOnChar '.' localPart
    let labels := splitOnChar '.' domain
    atoms.all isEmailAtom &&
    labels.length ≥ 2 &&
    labels.all isEmailLabel
  | _ => false

/-- `validators.ts`: the email constraint; non-strings raise
`InvalidValueForConstraintError`. -/
def validateEmail (model : Model) (field : Field) (value : JSValue)
    (options : CoreOptions) : VResult :=
  match value with
  | .str s =>
    if !isEmailValid s then
      .ok (some (messageForError model field value "email" "Must be a valid email address" options))
    else .ok none
  | _ => .error (.invalidValueForConstraint "Must be a string")

/-- `validators.ts`: the format constraint; non-strings raise
`InvalidValueForConstraintError`. The source matches the value against
`options.with` (the `with` field of `FormatConstraintOptions`), not against
`options.pattern`. -/
def validateFormat (model : Model) (field : Field) (value : JSValue)
    (options : CoreOptions) : VResult :=
  match value with
  | .str s =>
    if !jsMatch s options.withRegex then
      .ok (some (messageForError model field value "format" "Must have a valid format" options))
    else .ok none
  | _ => .error (.invalidValueForConstraint "Must be a string")

/-- The single-quote character, used in the confirmation default message. -/
def sq : String := (Char.ofNat 39).toString

/-- `validators.ts`: the confirmation constraint compares the value against
`model[options.onKey]` with strict equality. `String(options.onKey)` renders an
absent option as `undefined` in the default message. -/
def validateConfirmation (model : Model) (field : Field) (value : JSValue)
    (options : CoreOptions) : VResult :=
  let target := match options.onKey with
    | some f => getField model f
    | none => JSValue.undef
  if !strictEq value target then
    let onName := match options.onKey with
      | some f => f
      | none => "undefined"
    .ok (some (messageForError model field value "confirmation"
      ("Must match " ++ sq ++ onName ++ sq) options))
  else .ok none

/-- `validators.ts`: the inclusion constraint fails when `options.in` does
not contain the value. Reading `includes` off an absent option raises a
runtime `TypeError`. -/
def validateInclusion (model : Model) (field : Field) (value : JSValue)
    (options : CoreOptions) : VResult :=
  match options.inArr with
  | some xs =>
    if !jsIncludes xs value then
      .ok (some (messageForError model field value "inclusion" "Must be an allowed value" options))
    else .ok none
  | none => .error (.typeError "Cannot read properties of undefined (reading includes)")

/-- `validators.ts`: the exclusion constraint fails when `options.from` does
contain the value; its failure message is resolved under the constraint key
`inclusion`. -/
def validateExclusion (model : Model) (field : Field) (value : JSValue)
    (options : CoreOptions) : VResult :=
  match options.fromArr with
  | some xs =>
    if jsIncludes xs value then
      .ok (some (messageForError model field value "inclusion" "Must not be a disallowed value" options))
    else .ok none
  | none => .error (.typeError "Cannot read properties of undefined (reading includes)")

/-- A hexadecimal digit, case-insensitive. -/
def isHexDigit (c : Char) : Bool :=
  c.isDigit || ('a' ≤ c && c ≤ 'f') || ('A' ≤ c && c ≤ 'F')

/-- `utils/uuid-format.ts`: strips whitespace, hyphens and periods, then
matches the 32-hex-digit UUID layout with version nibble 1 to 5 at position
12 and variant nibble 8, 9, a or b at position 16 (the regular expression
there, spelt out positionally). -/
def isUUIDValid (value : String) : Bool :=
  let sanitised := value.toList.filter (fun c => !(c.isWhitespace || c = '-' || c = '.'))
  sanitised.length = 32 &&
  sanitised.all isHexDigit &&
  (match sanitised.drop 12 with
   | c :: _ => '1' ≤ c && c ≤ '5'
   | [] => false) &&
  (match sanitised.drop 16 with
   | c :: _ => c = '8' || c = '9' || c = 'a' || c = 'b' || c = 'A' || c = 'B'
   | [] => false)

/-- `validators.ts`: the uuid constraint; non-strings raise
`InvalidValueForConstraintError`. -/
def validateUUID (model : Model) (field : Field) (value : JSValue)
    (options : CoreOptions) : VResult :=
  match value with
  | .str s =>
    if !isUUIDValid s then
      .ok (some (messageForError model field value "uuid" "Must contain a valid UUID" options))
    else .ok none
  | _ => .error (.invalidValueForConstraint "Must be a string")

/-- `validators.ts`: the custom constraint delegates to `options.with`. The
embedded validator function receives the model, field and value (the options
self-reference of the JS signature carries no extra information for the
properties proved here). Calling an absent option raises `TypeError`. -/
def validateCustom (model : Model) (field : Field) (value : JSValue)
    (options : CoreOptions) : VResult :=
  match options.withFn with
  | some f => .ok (f model field value)
  | none => .error (.typeError "options.with is not a function")

/-- `type-utils/object-natures.ts`: the eight possible results of `typeof`. -/
def TYPE_VALUES : List String :=
  ["bigint", "boolean", "function", "number", "object", "string", "symbol", "undefined"]

/-- The argument in position `options` of `validateConstraint`
(`Options | true`): either the literal `true` marker requesting default
options, or an options record. -/
inductive OptionsArg where
  | defaultsMarker
  | given (o : CoreOptions)

/-- `core.ts` line 40: the `true` marker is replaced by an empty options
record. -/
def normalizeOptions : OptionsArg → CoreOptions
  | .defaultsMarker => {}
  | .given o => o

/-- The JavaScript property read `options.constructor` performed by the
instance guard in `validateConstraint`: a plain options record inherits
`Object.prototype.constructor` (the `Object` function) unless it carries an
own `constructor` entry. -/
def constructorProp (options : CoreOptions) : JSValue :=
  match options.ownConstructor with
  | some v => v
  | none => JSValue.fn 0 "Object"

/-- The `switch (constraint)` statement of `validateConstraint` in
`core.ts`, reached after the `options.if` conditional check: constraint-name
dispatch with the per-constraint required-option guards, and the
unknown-constraint error in the default case. -/
def validateConstraintSwitch (model : Model) (field : Field) (constraint : String)
    (value : JSValue) (options : CoreOptions) : VResult :=
  match constraint with
  | "presence" => validatePresence model field value options
  | "absence" => validateAbsence model field value options
  | "type" =>
    if !(match options.type with
         | some t => TYPE_VALUES.contains t
         | none => false) then
      .error (.requiredOptionMissing "A valid type string must be supplied")
    else validateType model field value options
  | "instance" =>
    if !(options.Constructor.isSome && typeofJS (constructorProp options) = "function") then
      .error (.invalidValueForConstraint "A valid constructor or class must be supplied")
    else validateInstance model field value options
  | "length" => validateLength model field value options
  | "email" => validateEmail model field value options
  | "format" =>
    if !options.pattern.isSome then
      .error (.requiredOptionMissing "Pattern for validation must be supplied")
    else validateFormat model field value options
  | "confirmation" =>
    if !options.onKey.isSome then
      .error (.requiredOptionMissing "The name of the confirmation field must be provided")
    else validateConfirmation model field value options
  | "inclusion" =>
    if !options.inArr.isSome then
      .error (.requiredOptionMissing "An array of the accepted values must be provided")
    else validateInclusion model field value options
  | "exclusion" =>
    if !options.fromArr.isSome then
      .error (.requiredOptionMissing "An array of the rejected values must be provided")
    else validateExclusion model field value options
  | "uuid" => validateUUID model field value options
  | "custom" =>
    if !options.withFn.isSome then
      .error (.requiredOptionMissing "A custom validator function must be provided")
    else validateCustom model field value options
  | _ => .error (.unknownConstraint ("Unknown constraint " ++ constraint))

/-- The constraint names carried by the dispatch switch; every other name
falls into the default unknown-constraint case. -/
def knownConstraints : List String :=
  ["presence", "absence", "type", "instance", "length", "email", "format",
   "confirmation", "inclusion", "exclusion", "uuid", "custom"]

/-- `core.ts`: `validateConstraint`. Normalizes the `true` marker, reads the
field value, applies the `options.if` conditional skip (returning no error
when the predicate rejects), then dispatches on the constraint name. -/
def validateConstraint (model : Model) (field : Field) (constraint : String)
    (optionsArg : OptionsArg) : VResult :=
  match (normalizeOptions optionsArg).ifPred with
  | some p =>
    if !p (getField model field) model field then .ok none
    else validateConstraintSwitch model field constraint (getField model field)
      (normalizeOptions optionsArg)
  | none => validateConstraintSwitch model field constraint (getField model field)
      (normalizeOptions optionsArg)

/-- `core.ts`: `FieldValidationHaltBy`. -/
inductive FieldValidationHaltBy where
  | never
  | firstError
deriving DecidableEq

/-- `core.ts`: `FieldConstraints` — an insertion-ordered record of
constraint names to options, embedded as the list that `Object.entries`
iterates. -/
abbrev FieldConstraints := List (String × OptionsArg)

/-- `core.ts`: `validateField`. Iterates the constraints in declared order,
pushing each truthy error message (JavaScript truthiness: a pushed message
is a non-empty string), and breaks after the first pushed message when
`haltBy` is first-error. A thrown configuration error propagates. -/
def validateField (model : Model) (field : Field) (constraints : FieldConstraints)
    (haltBy : FieldValidationHaltBy) : Except JSError (List String) :=
  match constraints with
  | [] => .ok []
  | (constraint, options) :: rest =>
    match validateConstraint model field constraint options with
    | .error e => .error e
    | .ok err =>
      match err with
      | some msg =>
        if msg ≠ "" then
          if haltBy = .firstError then .ok [msg]
          else
            match validateField model field rest haltBy with
            | .error e => .error e
            | .ok tail => .ok (msg :: tail)
        else validateField model field rest haltBy
      | none => validateField model field rest haltBy

/-- `core.ts`: `ModelValidationHaltBy`. -/
inductive ModelValidationHaltBy where
  | never
  | firstError
  | firstFieldError
deriving DecidableEq

/-- `core.ts`: `ModelConstraints` — an insertion-ordered record of field
names to their constraint sets. -/
abbrev ModelConstraints := List (String × FieldConstraints)

/-- `core.ts`: `validate`. Iterates fields in declared order, validating
each with per-field halt policy first-error when the model-level policy is
not never (else never); stores a field only when it produced errors, and
breaks after the first such field when the model-level policy is
first-error. The result is the insertion-ordered record of stored fields. -/
def validate (model : Model) (modelConstraints : ModelConstraints)
    (haltBy : ModelValidationHaltBy) : Except JSError (List (String × List String)) :=
  match modelConstraints with
  | [] => .ok []
  | (field, constraints) :: rest =>
    match validateField model field constraints
      (if haltBy ≠ ModelValidationHaltBy.never then FieldValidationHaltBy.firstError
       else FieldValidationHaltBy.never) with
    | .error e => .error e
    | .ok errors =>
      if errors.length > 0 then
        if haltBy = .firstError then .ok [(field, errors)]
        else
          match validate model rest haltBy with
          | .error e => .error e
          | .ok tail => .ok ((field, errors) :: tail)
      else validate model rest haltBy

/-- The regular expression of digits only, anchored at both ends, used as a
concrete format pattern in the statements below. -/
def digitsPattern : JSRegExp :=
  ⟨fun s => !s.data.isEmpty && s.data.all Char.isDigit⟩

/-- An i18n handler that recognises only the lookup key
`validation.inclusion` and translates it to a fixed marker string. -/
def inclusionOnlyHandler : I18nHandler :=
  ⟨fun k => k = "validation.inclusion", fun _ _ => "resolved-via-inclusion-key"⟩

/-- An i18n handler that recognises only the lookup key `validation.type`
and translates it to a fixed marker string. -/
def typeOnlyHandler : I18nHandler :=
  ⟨fun k => k = "validation.type", fun _ _ => "resolved-via-type-key"⟩

/-- An i18n handler that recognises every lookup key and echoes the key into
its translation. -/
def alwaysHandler : I18nHandler :=
  ⟨fun _ => true, fun k _ => "translated:" ++ k⟩

/-- A model carrying an undefined field `x`, used in the statements below. -/
def exModelC2 : Model := [("x", JSValue.undef)]

/-- The constraint set of the spec example: presence with default options,
then length with minimum 5. -/
def exCsC2 : FieldConstraints :=
  [("presence", OptionsArg.defaultsMarker),
   ("length", OptionsArg.given { minimum := some 5 })]

/-- A model whose fields `a` and `b` are both undefined. -/
def exModelC1 : Model := [("a", JSValue.undef), ("b", JSValue.undef)]

/-- Model constraints demanding presence of both `a` and `b`. -/
def exMcsC1 : ModelConstraints :=
  [("a", [("presence", OptionsArg.defaultsMarker)]),
   ("b", [("presence", OptionsArg.defaultsMarker)])]

/-- The filtering of one field result performed by the `validate` loop under
`first-field-error` policy: a field is kept only when its first-error field
validation produced a non-empty error list. -/
def keptFieldEntry (model : Model) (e : String × FieldConstraints) :
    Option (String × List String) :=
  match validateField model e.1 e.2 .firstError with
  | .ok errs => if errs.isEmpty then none else some (e.1, errs)
  | .error _ => none

/-- The message kept by the `validateField` loop for one constraint result:
the message when the constraint failed with a truthy (non-empty) message,
nothing otherwise or on a thrown error. -/
def keptMessage (model : Model) (field : Field) (p : String × OptionsArg) :
    Option String :=
  match validateConstraint model field p.1 p.2 with
  | .ok (some m) => if m ≠ "" then some m else none
  | _ => none

/-- A prefix of constraints that all pass contributes nothing: the field
validation of the whole list equals that of the remainder. -/
theorem validateField_passing_front (model : Model) (field : Field)
    (pre rest : FieldConstraints) (hb : FieldValidationHaltBy)
    (hpre : ∀ p ∈ pre, validateConstraint model field p.1 p.2 = .ok none) :
    validateField model field (pre ++ rest) hb = validateField model field rest hb := by
  induction pre with
  | nil => rfl
  | cons p pre ih =>
    obtain ⟨c, o⟩ := p
    have hp := hpre (c, o) (List.mem_cons_self _ _)
    simp only [List.cons_append, validateField, hp]
    exact ih (fun q hq => hpre q (List.mem_cons_of_mem _ hq))

/-- Under the first-error policy, a failing constraint with a truthy message
ends the field validation with exactly that message, whatever follows. -/
theorem validateField_firstError_halts (model : Model) (field : Field)
    (c : String) (oa : OptionsArg) (msg : String) (post : FieldConstraints)
    (hc : validateConstraint model field c oa = .ok (some msg)) (hmsg : msg ≠ "") :
    validateField model field ((c, oa) :: post) .firstError = .ok [msg] := by
  simp [validateField, hc, hmsg]

/-- Under the never policy, when no constraint throws, the field validation
evaluates every constraint and collects every truthy message in order. -/
theorem validateField_never_collects (model : Model) (field : Field)
    (cs : FieldConstraints)
    (h : ∀ p ∈ cs, ∃ r, validateConstraint model field p.1 p.2 = .ok r) :
    validateField model field cs .never = .ok (cs.filterMap (keptMessage model field)) := by
  induction cs with
  | nil => rfl
  | cons p cs ih =>
    obtain ⟨r, hr⟩ := h p (List.mem_cons_self _ _)
    have ih := ih (fun q hq => h q (List.mem_cons_of_mem _ hq))
    obtain ⟨c, o⟩ := p
    match r with
    | none => simp [validateField, hr, List.filterMap_cons, keptMessage, ih]
    | some m =>
      by_cases hm : m = "" <;>
        simp [validateField, hr, List.filterMap_cons, keptMessage, hm, ih]

/-- Under the first-error policy the field validation returns at most one
message. -/
theorem validateField_firstError_len (model : Model) (field : Field)
    (cs : FieldConstraints) (errs : List String)
    (h : validateField model field cs .firstError = .ok errs) : errs.length ≤ 1 := by
  induction cs generalizing errs with
  | nil =>
    simp only [validateField] at h
    cases h
    simp
  | cons p cs ih =>
    obtain ⟨c, o⟩ := p
    cases hc : validateConstraint model field c o with
    | error e => simp [validateField, hc] at h
    | ok r =>
      match r with
      | none =>
        simp only [validateField, hc] at h
        exact ih _ h
      | some m =>
        by_cases hm : m = ""
        · subst hm
          simp only [validateField, hc] at h
          rw [if_neg (by simp)] at h
          exact ih _ h
        · simp only [validateField, hc] at h
          rw [if_pos hm] at h
          simp only [if_true] at h
          cases h
          simp

/-- Every constraint name outside the fixed table falls into the default
case of the dispatch switch: an unknown-constraint error. -/
theorem validateConstraintSwitch_unknown (model : Model) (field : Field)
    (name : String) (value : JSValue) (options : CoreOptions)
    (h : name ∉ knownConstraints) :
    validateConstraintSwitch model field name value options =
      .error (.unknownConstraint ("Unknown constraint " ++ name)) := by
  simp only [knownConstraints, List.mem_cons, List.not_mem_nil, or_false] at h
  push_neg at h
  obtain ⟨h1, h2, h3, h4, h5, h6, h7, h8, h9, h10, h11, h12⟩ := h
  unfold validateConstraintSwitch
  split <;> simp_all

/-- One step of the model validator: the head field is delegated to the
field validator with the effective per-field halt policy (first-error
unless the model-level policy is never), its errors are stored only when
non-empty, and the model-level first-error policy stops the iteration. -/
theorem validate_cons (model : Model) (f : String) (cs : FieldConstraints)
    (rest : ModelConstraints) (hb : ModelValidationHaltBy) :
    validate model ((f, cs) :: rest) hb =
      match validateField model f cs
        (if hb = ModelValidationHaltBy.never then FieldValidationHaltBy.never
         else FieldValidationHaltBy.firstError) with
      | .error e => .error e
      | .ok errors =>
        if errors.length > 0 then
          if hb = ModelValidationHaltBy.firstError then .ok [(f, errors)]
          else
            match validate model rest hb with
            | .error e => .error e
            | .ok tail => .ok ((f, errors) :: tail)
        else validate model rest hb := by
  cases hb <;> rfl

/-- Under the model-level first-error policy, the first field that yields
errors ends the iteration: the result stores exactly that field, whatever
fields follow. -/
theorem validate_firstError_stops (model : Model) (pre : ModelConstraints)
    (f : String) (cs : FieldConstraints) (errs : List String) (post : ModelConstraints)
    (hpre : ∀ p ∈ pre, validateField model p.1 p.2 .firstError = .ok [])
    (hf : validateField model f cs .firstError = .ok errs) (hne : errs ≠ []) :
    validate model (pre ++ (f, cs) :: post) .firstError = .ok [(f, errs)] := by
  have hpol : (if ModelValidationHaltBy.firstError = ModelValidationHaltBy.never
      then FieldValidationHaltBy.never else FieldValidationHaltBy.firstError) =
      FieldValidationHaltBy.firstError := rfl
  induction pre with
  | nil =>
    cases errs with
    | nil => exact absurd rfl hne
    | cons a l =>
      rw [List.nil_append, validate_cons, hpol, hf]
      simp
  | cons p pre ih =>
    obtain ⟨f0, cs0⟩ := p
    have hp := hpre (f0, cs0) (List.mem_cons_self _ _)
    rw [List.cons_append, validate_cons, hpol, hp]
    exact ih (fun q hq => hpre q (List.mem_cons_of_mem _ hq))

/-- Under the model-level first-field-error policy every declared field is
visited: a successful run stores exactly the fields whose first-error field
validation produced errors, in declaration order. -/
theorem validate_firstFieldError_all_fields (model : Model) (mcs : ModelConstraints)
    (r : List (String × List String))
    (h : validate model mcs .firstFieldError = .ok r) :
    r = mcs.filterMap (keptFieldEntry model) := by
  induction mcs generalizing r with
  | nil =>
    simp only [validate] at h
    cases h
    rfl
  | cons e rest ih =>
    obtain ⟨f, cs⟩ := e
    rw [validate_cons,
      show (if ModelValidationHaltBy.firstFieldError = ModelValidationHaltBy.never
        then FieldValidationHaltBy.never else FieldValidationHaltBy.firstError) =
        FieldValidationHaltBy.firstError from rfl] at h
    cases hv : validateField model f cs .firstError with
    | error err => simp [hv] at h
    | ok errs =>
      simp only [hv] at h
      by_cases hemp : errs.isEmpty
      · have : errs = [] := by simpa [List.isEmpty_iff] using hemp
        subst this
        simp only [List.length_nil, gt_iff_lt, lt_self_iff_false, if_false] at h
        simp [List.filterMap_cons, keptFieldEntry, hv, ih _ h]
      · have hlen : errs.length > 0 := by
          cases errs with
          | nil => simp at hemp
          | cons a l => simp
        rw [if_pos hlen] at h
        simp only [show (ModelValidationHaltBy.firstFieldError = ModelValidationHaltBy.firstError) = False
          by simp] at h
        rw [if_neg (by simp)] at h
        cases hrest : validate model rest .firstFieldError with
        | error err => simp [hrest] at h
        | ok tail =>
          rw [hrest] at h
          cases h
          simp [List.filterMap_cons, keptFieldEntry, hv, hemp, ih _ hrest]

/-- Every field stored by a successful first-field-error run carries exactly
one error message. -/
theorem validate_firstFieldError_entry_len (model : Model) (mcs : ModelConstraints)
    (r : List (String × List String))
    (h : validate model mcs .firstFieldError = .ok r) :
    ∀ p ∈ r, p.2.length = 1 := by
  intro p hp
  rw [validate_firstFieldError_all_fields model mcs r h] at hp
  rw [List.mem_filterMap] at hp
  obtain ⟨e, _, hkept⟩ := hp
  obtain ⟨pf, perrs⟩ := p
  unfold keptFieldEntry at hkept
  cases hv : validateField model e.1 e.2 .firstError with
  | error err => rw [hv] at hkept; cases hkept
  | ok errs =>
    rw [hv] at hkept
    by_cases hemp : errs.isEmpty
    · simp [hemp] at hkept
    · simp [hemp] at hkept
      obtain ⟨h1, h2⟩ := hkept
      have hle := validateField_firstError_len model e.1 e.2 errs hv
      have hpos : 0 < errs.length := by
        cases errs with
        | nil => simp at hemp
        | cons a l => simp
      simp only [← h2]
      omega

/-- C3: the claim states that the format constraint, dispatched with a
string value and an options record whose `pattern` field is a regular
expression, fails exactly when the value does not match that expression.
The code contradicts it: the dispatcher guards `options.pattern`, but the
validator matches the value against `options.with`; with only `pattern`
supplied, `match(undefined)` coerces to the empty pattern and the constraint
passes every string. Here the digits pattern does not match `abc123`, yet
both the dispatched constraint and the bare validator return a pass. -/
theorem C3_format_ignores_pattern :
    digitsPattern.test "abc123" = false ∧
    validateConstraint [("code", JSValue.str "abc123")] "code" "format"
      (.given { pattern := some digitsPattern }) = .ok none ∧
    validateFormat [("code", JSValue.str "abc123")] "code" (JSValue.str "abc123")
      { pattern := some digitsPattern } = .ok none :=
  ⟨rfl, rfl, rfl⟩

/-- C4: the claim states that a failing exclusion constraint resolves its
message under an exclusion-specific key distinct from `inclusion`, and a
failing instance constraint under an instance-specific key distinct from
`type`. The code contradicts it: a handler that recognises only
`validation.inclusion` translates the failing exclusion, and one that
recognises only `validation.type` translates the failing instance, while
neither recognises `validation.exclusion` or `validation.instance`. -/
theorem C4_exclusion_instance_keys :
    validateExclusion [] "f" (JSValue.str "admin")
      { fromArr := some [JSValue.str "admin"],
        i18n := some ⟨some inclusionOnlyHandler, none⟩ } =
      .ok (some "resolved-via-inclusion-key") ∧
    validateInstance [] "f" (JSValue.str "x")
      { Constructor := some (JSValue.fn 1 "Date"),
        i18n := some ⟨some typeOnlyHandler, none⟩ } =
      .ok (some "resolved-via-type-key") ∧
    inclusionOnlyHandler.existsKey "validation.exclusion" = false ∧
    typeOnlyHandler.existsKey "validation.instance" = false :=
  ⟨rfl, rfl, rfl, rfl⟩

/-- C6: the claim states that an options record without a callable
`Constructor` makes the instance dispatch raise a configuration error
without calling the validator. The code contradicts it for a present but
non-callable `Constructor`: the guard tests `typeof options.constructor`
(the inherited `Object` function) instead of `options.Constructor`, so
dispatch reaches the validator, whose `instanceof` raises a runtime
`TypeError` rather than a configuration error. The missing-key case does
raise the configuration error. -/
theorem C6_instance_guard_bypass :
    validateConstraint [("x", JSValue.num 1)] "x" "instance"
      (.given { Constructor := some (JSValue.num 42) }) =
      .error (.typeError "Right-hand side of instanceof is not callable") ∧
    validateInstance [("x", JSValue.num 1)] "x" (JSValue.num 1)
      { Constructor := some (JSValue.num 42) } =
      .error (.typeError "Right-hand side of instanceof is not callable") ∧
    validateConstraint [("x", JSValue.num 1)] "x" "instance" (.given {}) =
      .error (.invalidValueForConstraint "A valid constructor or class must be supplied") :=
  ⟨rfl, rfl, rfl⟩

/-- C9: for every model, field, value and array, the inclusion validator
over `in` and the exclusion validator over `from` applied to the same array
are exact complements on pass versus fail. -/
theorem C9_inclusion_exclusion_complement (model : Model) (field : Field)
    (value : JSValue) (s : List JSValue) (oi oe : CoreOptions)
    (hi : oi.inArr = some s) (he : oe.fromArr = some s) :
    ((∃ msg, validateInclusion model field value oi = .ok (some msg)) ↔
       validateExclusion model field value oe = .ok none) ∧
    ((∃ msg, validateExclusion model field value oe = .ok (some msg)) ↔
       validateInclusion model field value oi = .ok none) := by
  by_cases hm : jsIncludes s value <;>
    simp [validateInclusion, validateExclusion, hi, he, hm]

/-- Witness for C9 at a concrete input: the string `x` is not in the array
containing only `a`, so inclusion fails and, equivalently, exclusion
passes. -/
theorem C9_witness :
    validateExclusion [] "s" (JSValue.str "x")
      { fromArr := some [JSValue.str "a"] } = .ok none :=
  (C9_inclusion_exclusion_complement [] "s" (JSValue.str "x") [JSValue.str "a"]
    { inArr := some [JSValue.str "a"] } { fromArr := some [JSValue.str "a"] }
    rfl rfl).1.mp ⟨"Must be an allowed value", rfl⟩

/-- C10: the conditional skip runs before the constraint-name lookup, so any
constraint whose `if` predicate rejects the value is skipped without an
error, even when its name is outside the known constraint set. -/
theorem C10_conditional_skip_before_lookup (model : Model) (field : Field)
    (name : String) (oa : OptionsArg) (p : JSValue → Model → Field → Bool)
    (hp : (normalizeOptions oa).ifPred = some p)
    (hres : p (getField model field) model field = false) :
    validateConstraint model field name oa = .ok none := by
  simp [validateConstraint, hp, hres]

/-- Witness for C10 at a concrete input: the unknown constraint name `bogus`
with an always-false `if` predicate yields no error and no exception. -/
theorem C10_witness :
    validateConstraint [] "x" "bogus"
      (.given { ifPred := some (fun _ _ _ => false) }) = .ok none :=
  C10_conditional_skip_before_lookup [] "x" "bogus"
    (.given { ifPred := some (fun _ _ _ => false) }) (fun _ _ _ => false) rfl rfl

/-- C5 counterexample: the claim states that a set `options.message` is
returned verbatim regardless of any configured i18n handler. With the
message set to the empty string and a handler recognising every key, the
resolver returns the translation of `validation.presence` instead of the
set message, because the message guard is Ember `isPresent`, which rejects
blank strings. -/
theorem C5_counterexample :
    messageForError [] "f" JSValue.undef "presence" "dflt"
      { message := some "", i18n := some ⟨some alwaysHandler, none⟩ } =
      "translated:validation.presence" ∧
    "translated:validation.presence" ≠ "" :=
  ⟨rfl, by decide⟩

/-- C5 (amended): the resolved message for a failing constraint follows the
precedence chain with the message step guarded by presence rather than mere
setting: a message set to a present (non-empty, non-blank) string is
returned verbatim regardless of any i18n handler; otherwise, with a handler
configured, the lookup key is `options.i18n.key` when given, else
`validation.` + constraint key, and the handler translation is returned when
the handler recognises that key, with the parameter record carrying the
constraint key, model, field, value and the remaining option entries;
otherwise the default message is returned. -/
theorem C5_amended_message_precedence :
    (∀ model field value constraint dflt options msg,
       CoreOptions.message options = some msg → isPresent (some msg) = true →
       messageForError model field value constraint dflt options = msg) ∧
    (∀ model field value constraint dflt options h key,
       isPresent (CoreOptions.message options) = false →
       CoreOptions.i18n options = some ⟨some h, key⟩ →
       messageForError model field value constraint dflt options =
         (if h.existsKey (key.getD ("validation." ++ constraint)) then
            h.t (key.getD ("validation." ++ constraint))
              (translationParams model field value constraint options)
          else dflt)) ∧
    (∀ model field value constraint dflt options,
       isPresent (CoreOptions.message options) = false →
       (CoreOptions.i18n options = none ∨
          ∃ key, CoreOptions.i18n options = some ⟨none, key⟩) →
       messageForError model field value constraint dflt options = dflt) := by
  refine ⟨?_, ?_, ?_⟩
  · intro model field value constraint dflt options msg hmsg hpres
    rw [messageForError, hmsg] at *
    rw [if_pos hpres]
    rfl
  · intro model field value constraint dflt options h key hblank hi
    rw [messageForError, if_neg (by simp [hblank]), hi]
    simp
  · intro model field value constraint dflt options hblank hi
    rcases hi with hi | ⟨key, hi⟩ <;>
      rw [messageForError, if_neg (by simp [hblank]), hi]

/-- Witness for C5 at concrete inputs: a present message wins over a
matching handler, an absent message falls to the handler translation under
the computed key, and with no message and no i18n option the default
message is returned. -/
theorem C5_witness :
    messageForError [] "f" JSValue.undef "presence" "dflt"
      { message := some "hello", i18n := some ⟨some alwaysHandler, none⟩ } = "hello" ∧
    messageForError [] "f" JSValue.undef "presence" "dflt"
      { i18n := some ⟨some alwaysHandler, none⟩ } = "translated:validation.presence" ∧
    messageForError [] "f" JSValue.undef "presence" "dflt" {} = "dflt" := by
  refine ⟨C5_amended_message_precedence.1 [] "f" JSValue.undef "presence" "dflt"
      { message := some "hello", i18n := some ⟨some alwaysHandler, none⟩ } "hello" rfl rfl,
    ?_,
    C5_amended_message_precedence.2.2 [] "f" JSValue.undef "presence" "dflt" {} rfl (Or.inl rfl)⟩
  exact (C5_amended_message_precedence.2.1 [] "f" JSValue.undef "presence" "dflt"
    { i18n := some ⟨some alwaysHandler, none⟩ } alwaysHandler none rfl rfl).trans rfl

/-- C7: a constraint name outside the fixed table makes the field validation
raise the unknown-constraint configuration error the moment the iteration
reaches it — when the preceding constraints all pass, the whole call ends
with that error whatever constraints follow and whatever the halt policy,
and the error is propagated rather than recorded as a field failure. The
hypothesis on `ifPred` excludes the conditional skip of C10. -/
theorem C7_unknown_constraint_raises (model : Model) (field : Field)
    (pre : FieldConstraints) (name : String) (oa : OptionsArg)
    (post : FieldConstraints) (hb : FieldValidationHaltBy)
    (hname : name ∉ knownConstraints)
    (hif : (normalizeOptions oa).ifPred = none)
    (hpre : ∀ p ∈ pre, validateConstraint model field p.1 p.2 = .ok none) :
    validateField model field (pre ++ (name, oa) :: post) hb =
      .error (.unknownConstraint ("Unknown constraint " ++ name)) := by
  rw [validateField_passing_front model field pre _ hb hpre]
  have hc : validateConstraint model field name oa =
      .error (.unknownConstraint ("Unknown constraint " ++ name)) := by
    rw [validateConstraint, hif]
    exact validateConstraintSwitch_unknown model field name (getField model field)
      (normalizeOptions oa) hname
  simp [validateField, hc]

/-- Witness for C7 at a concrete input: presence passes on a present value,
then the unknown name `bogus` aborts the call with the unknown-constraint
error; the trailing absence constraint is irrelevant. -/
theorem C7_witness :
    validateField [("a", JSValue.str "hi")] "a"
      [("presence", OptionsArg.defaultsMarker), ("bogus", OptionsArg.defaultsMarker),
       ("absence", OptionsArg.defaultsMarker)] .never =
      .error (.unknownConstraint "Unknown constraint bogus") :=
  C7_unknown_constraint_raises [("a", JSValue.str "hi")] "a"
    [("presence", OptionsArg.defaultsMarker)] "bogus" OptionsArg.defaultsMarker
    [("absence", OptionsArg.defaultsMarker)] .never (by decide) rfl
    (fun p hp => by rw [List.mem_singleton] at hp; subst hp; rfl)

/-- C8: each of the format, email and uuid validators raises the
invalid-value configuration error on every non-string value without
returning a failing message, and on every string value never raises,
returning a failure message exactly when the respective predicate rejects
the string (for format, the predicate the code applies: a match of the
value against the `with` option). -/
theorem C8_string_guards (model : Model) (field : Field) (value : JSValue)
    (options : CoreOptions) :
    ((∀ s, value ≠ JSValue.str s) →
       validateFormat model field value options =
         .error (.invalidValueForConstraint "Must be a string") ∧
       validateEmail model field value options =
         .error (.invalidValueForConstraint "Must be a string") ∧
       validateUUID model field value options =
         .error (.invalidValueForConstraint "Must be a string")) ∧
    (∀ s, value = JSValue.str s →
       validateFormat model field value options =
         .ok (if jsMatch s options.withRegex then none
              else some (messageForError model field value "format"
                "Must have a valid format" options)) ∧
       validateEmail model field value options =
         .ok (if isEmailValid s then none
              else some (messageForError model field value "email"
                "Must be a valid email address" options)) ∧
       validateUUID model field value options =
         .ok (if isUUIDValid s then none
              else some (messageForError model field value "uuid"
                "Must contain a valid UUID" options))) := by
  constructor
  · intro h
    cases value <;> first
      | exact absurd rfl (h _)
      | exact ⟨rfl, rfl, rfl⟩
  · intro s hs
    subst hs
    refine ⟨?_, ?_, ?_⟩
    · by_cases hm : jsMatch s options.withRegex <;> simp [validateFormat, hm]
    · by_cases hm : isEmailValid s <;> simp [validateEmail, hm]
    · by_cases hm : isUUIDValid s <;> simp [validateUUID, hm]

/-- Witness for C8 at concrete inputs: email on a number raises the
configuration error; email on a string never raises — it passes an address
whose local part uses a special character of the regex class and fails one
with a leading period; uuid on a canonical UUID string passes. -/
theorem C8_witness :
    validateEmail [] "e" (JSValue.num 3) {} =
      .error (.invalidValueForConstraint "Must be a string") ∧
    validateEmail [] "e" (JSValue.str "a!b@x.com") {} = .ok none ∧
    validateEmail [] "e" (JSValue.str ".a@x.com") {} =
      .ok (some "Must be a valid email address") ∧
    validateUUID [] "u" (JSValue.str "f47ac10b-58cc-4372-a567-0e02b2c3d479") {} = .ok none := by
  refine ⟨?_, ?_, ?_, ?_⟩
  · exact ((C8_string_guards [] "e" (JSValue.num 3) {}).1
      (fun s h => JSValue.noConfusion h)).2.1
  · exact (((C8_string_guards [] "e" (JSValue.str "a!b@x.com") {}).2
      "a!b@x.com" rfl).2.1).trans (by rfl)
  · exact (((C8_string_guards [] "e" (JSValue.str ".a@x.com") {}).2
      ".a@x.com" rfl).2.1).trans (by rfl)
  · exact (((C8_string_guards [] "u"
      (JSValue.str "f47ac10b-58cc-4372-a567-0e02b2c3d479") {}).2
      "f47ac10b-58cc-4372-a567-0e02b2c3d479" rfl).2.2).trans (by rfl)

/-- C2 counterexample: the claim states that on constraints
`presence: true, length: minimum 5` and value undefined, the never policy
returns two error messages. The code instead raises the invalid-value
configuration error when the never policy reaches the length constraint,
because undefined has no numeric length; the first-error half of the
example does hold. -/
theorem C2_never_counterexample :
    validateField exModelC2 "x" exCsC2 .never =
      .error (.invalidValueForConstraint
        "Constrained field should have a numeric `length` property") ∧
    validateField exModelC2 "x" exCsC2 .never ≠
      .ok ["Must be present", "Length must be greater than 5"] ∧
    validateField exModelC2 "x" exCsC2 .firstError = .ok ["Must be present"] :=
  ⟨rfl, fun h => Except.noConfusion h, rfl⟩

/-- C2 (amended): the field validator evaluates constraints in declared
order; under first-error it stops at the first failing constraint (whatever
follows is never evaluated), and under never every constraint is evaluated,
collecting all truthy messages. On the spec example — constraints
`presence: true, length: minimum 5` on value undefined — first-error returns
exactly the presence message, while never raises the invalid-value
configuration error on reaching the length constraint (undefined has no
numeric length) instead of returning two messages. -/
theorem C2_field_halting_amended :
    (∀ model field pre c oa msg post,
       (∀ p ∈ pre, validateConstraint model field p.1 p.2 = .ok none) →
       validateConstraint model field c oa = .ok (some msg) → msg ≠ "" →
       validateField model field (pre ++ (c, oa) :: post) .firstError = .ok [msg]) ∧
    (∀ model field cs,
       (∀ p ∈ cs, ∃ r, validateConstraint model field p.1 p.2 = .ok r) →
       validateField model field cs .never =
         .ok (cs.filterMap (keptMessage model field))) ∧
    validateField exModelC2 "x" exCsC2 .firstError = .ok ["Must be present"] ∧
    validateField exModelC2 "x" exCsC2 .never =
      .error (.invalidValueForConstraint
        "Constrained field should have a numeric `length` property") := by
  refine ⟨?_, validateField_never_collects, rfl, rfl⟩
  intro model field pre c oa msg post hpre hc hmsg
  rw [validateField_passing_front model field pre _ _ hpre]
  exact validateField_firstError_halts model field c oa msg post hc hmsg

/-- Witness for C2 at a concrete input: presence fails on null with a truthy
message, so first-error stops there; under never both constraints are
evaluated and the passing absence constraint contributes nothing. -/
theorem C2_witness :
    validateField [("y", JSValue.null)] "y"
      [("presence", OptionsArg.defaultsMarker), ("absence", OptionsArg.defaultsMarker)]
      .firstError = .ok ["Must be present"] ∧
    validateField [("y", JSValue.null)] "y"
      [("presence", OptionsArg.defaultsMarker), ("absence", OptionsArg.defaultsMarker)]
      .never = .ok ["Must be present"] := by
  constructor
  · exact C2_field_halting_amended.1 [("y", JSValue.null)] "y" [] "presence"
      OptionsArg.defaultsMarker "Must be present" [("absence", OptionsArg.defaultsMarker)]
      (fun p hp => absurd hp (List.not_mem_nil p)) rfl (by decide)
  · have hall : ∀ p ∈ ([("presence", OptionsArg.defaultsMarker),
        ("absence", OptionsArg.defaultsMarker)] : FieldConstraints),
        ∃ r, validateConstraint [("y", JSValue.null)] "y" p.1 p.2 = .ok r := by
      intro p hp
      rcases List.mem_cons.mp hp with h | h
      · subst h; exact ⟨some "Must be present", rfl⟩
      · rcases List.mem_cons.mp h with h2 | h2
        · subst h2; exact ⟨none, rfl⟩
        · cases h2
    exact (C2_field_halting_amended.2.1 [("y", JSValue.null)] "y"
      [("presence", OptionsArg.defaultsMarker), ("absence", OptionsArg.defaultsMarker)]
      hall).trans (by rfl)

/-- C1: the model validator iterates fields in declared order, delegating
each field to the field validator with per-field policy first-error when the
model-level policy is not never, and never otherwise; under first-error it
stops at the first field yielding errors (that field's errors form the whole
result, later fields are absent), and under first-field-error every field is
visited, a successful run storing exactly the failing fields, each with
exactly one message. -/
theorem C1_validate_order_and_halting :
    (∀ model f cs rest hb,
       validate model ((f, cs) :: rest) hb =
         match validateField model f cs
           (if hb = ModelValidationHaltBy.never then FieldValidationHaltBy.never
            else FieldValidationHaltBy.firstError) with
         | .error e => .error e
         | .ok errors =>
           if errors.length > 0 then
             if hb = ModelValidationHaltBy.firstError then .ok [(f, errors)]
             else
               match validate model rest hb with
               | .error e => .error e
               | .ok tail => .ok ((f, errors) :: tail)
           else validate model rest hb) ∧
    (∀ model pre f cs errs post,
       (∀ p ∈ pre, validateField model p.1 p.2 .firstError = .ok []) →
       validateField model f cs .firstError = .ok errs → errs ≠ [] →
       validate model (pre ++ (f, cs) :: post) .firstError = .ok [(f, errs)]) ∧
    (∀ model mcs r, validate model mcs .firstFieldError = .ok r →
       r = mcs.filterMap (keptFieldEntry model) ∧ ∀ p ∈ r, p.2.length = 1) :=
  ⟨validate_cons, validate_firstError_stops, fun model mcs r h =>
    ⟨validate_firstFieldError_all_fields model mcs r h,
     validate_firstFieldError_entry_len model mcs r h⟩⟩

/-- Witness for C1 at concrete inputs: with fields `a` and `b` both failing
presence, the first-error run stores only `a` (field `b` is absent from the
result whatever follows), and in the first-field-error run the entry stored
for `a` carries exactly one message. -/
theorem C1_witness :
    validate exModelC1 exMcsC1 .firstError = .ok [("a", ["Must be present"])] ∧
    (("a", ["Must be present"]) : String × List String).2.length = 1 := by
  constructor
  · exact C1_validate_order_and_halting.2.1 exModelC1 [] "a"
      [("presence", OptionsArg.defaultsMarker)] ["Must be present"]
      [("b", [("presence", OptionsArg.defaultsMarker)])]
      (fun p hp => absurd hp (List.not_mem_nil p)) rfl (by simp)
  · exact (C1_validate_order_and_halting.2.2 exModelC1 exMcsC1
      [("a", ["Must be present"]), ("b", ["Must be present"])] rfl).2
      ("a", ["Must be present"]) (by simp)

end EmberPerspective
